import Mathlib

/-!
Verification of the dcs package importer (cmd/dcs-package-importer/importer.go).

Filenames and paths are modelled as lists of characters (Go strings are byte
slices; the importer only compares, slices and concatenates them).  The STORE
directory (the flag -unpacked_path) is modelled by the list of its top-level
entry names, which is what packageNames() returns via Readdirnames(-1).
-/

namespace Dcs

/-- A Go string (filename, path). -/
abbrev Name := List Char

/-- strings.HasSuffix(s, suffix): s ends with suffix. -/
def goHasSuffix (s suffix : Name) : Bool :=
  decide (suffix.length ≤ s.length) && (s.drop (s.length - suffix.length) == suffix)

/-- strings.HasPrefix-style check (used only to state properties about
enumerated names): s starts with pre. -/
def goStartsWith (pre s : Name) : Bool :=
  s.take pre.length == pre

/-- The path separator used by filepath.Join / filepath.Base. -/
def sep : Char := '/'

/-- filepath.Join(dir, name) for a nonempty dir and a clean name. -/
def pathJoin (dir name : Name) : Name := dir ++ sep :: name

/-- filepath.Base on a path that does not end in a separator: everything after
the last separator. -/
def baseName (p : Name) : Name :=
  (p.reverse.takeWhile (fun c => c != sep)).reverse

/-- The literal ".idx". -/
def idxSuffix : Name := ['.', 'i', 'd', 'x']

/-- The literal "full.idx". -/
def fullIdx : Name := ['f', 'u', 'l', 'l', '.', 'i', 'd', 'x']

/-- The literal ".tmp". -/
def tmpSuffix : Name := ['.', 't', 'm', 'p']

/-- The literal "newshard", the ioutil.TempFile name stem used by mergeToShard;
TempFile appends a string of decimal digits to it. -/
def newshardStem : Name := ['n', 'e', 'w', 's', 'h', 'a', 'r', 'd']

/-- listPackages (importer.go:200-226): from the entry names of STORE, keep
the names ending in ".idx" other than "full.idx" and strip the ".idx" suffix
(name[:len(name)-len(".idx")]).  The loop that appends to reply.Packages is
the filter-then-map below. -/
def listPackagesReply (names : List Name) : List Name :=
  (names.filter fun name => goHasSuffix name idxSuffix && name != fullIdx).map
    fun name => name.take (name.length - idxSuffix.length)

/-- Outcome of a POST /garbagecollect request (importer.go:228-267).  Every
constructor other than `collected` is reported to the client as HTTP 500; only
`collected` increments the successfulGarbageCollects counter. -/
inductive GcResp
  | missingParam
  | notFound
  | removeIdxFailed
  | collected
  deriving DecidableEq, Repr

/-- Whether a garbage-collect outcome is an HTTP 500 error. -/
def gcIsError : GcResp → Bool
  | .collected => false
  | _ => true

/-- garbageCollect (importer.go:228-267) acting on the list of STORE entry
names.  Mirrors the handler: empty ?package= fails; the loop over
packageNames() looks for an entry equal to pkg that does not end in ".idx";
os.RemoveAll(Join(STORE, pkg)) removes the entry named pkg and succeeds even
when absent; os.Remove(Join(STORE, pkg+".idx")) fails iff that entry is
absent.  Returns the outcome and the new list of entries. -/
def garbageCollect (entries : List Name) (pkg : Name) : GcResp × List Name :=
  if pkg = [] then
    (.missingParam, entries)
  else if !(entries.any fun name => name == pkg && !goHasSuffix name idxSuffix) then
    (.notFound, entries)
  else
    let afterRemoveAll := entries.filter fun name => name != pkg
    if (pkg ++ idxSuffix) ∈ afterRemoveAll then
      (.collected, afterRemoveAll.filter fun name => name != pkg ++ idxSuffix)
    else
      (.removeIdxFailed, afterRemoveAll)

/-- Externally visible effects of one run of mergeToShard
(importer.go:270-329). -/
structure MergeEffects where
  /-- Value the filesInIndex gauge is set to (number of collected shards). -/
  gauge : Nat
  /-- Whether an ioutil.TempFile(STORE, "newshard") temporary was created. -/
  tempCreated : Bool
  /-- The input paths passed to index.ConcatN (empty when no merge ran). -/
  concatInputs : List Name
  /-- Whether the temporary was renamed to STORE/full.idx. -/
  renamedToFull : Bool
  /-- Arguments of the ReplaceIndex RPCs issued, in order. -/
  rpcArgs : List Name
  /-- Number of times successfulMerges.Inc() was called. -/
  mergesCounterInc : Nat
  deriving DecidableEq, Repr

/-- mergeToShard (importer.go:270-329).  `entries` is the STORE entry list;
`tempRand` is the random string TempFile appended to "newshard".  The code:
collect Join(STORE, name) for every entry ending ".idx" other than "full.idx";
set the gauge; return if fewer than 2; create the temporary; ConcatN; if
full.idx does not exist, rename the temporary onto it and return; otherwise
increment successfulMerges and issue ReplaceIndex(Base(temporary)). -/
def mergeToShard (unpackedPath : Name) (entries : List Name) (tempRand : Name) :
    MergeEffects :=
  let indexFiles := (entries.filter fun name =>
    goHasSuffix name idxSuffix && name != fullIdx).map (pathJoin unpackedPath)
  if indexFiles.length < 2 then
    { gauge := indexFiles.length, tempCreated := false, concatInputs := [],
      renamedToFull := false, rpcArgs := [], mergesCounterInc := 0 }
  else
    let tmpIndexPath := pathJoin unpackedPath (newshardStem ++ tempRand)
    if fullIdx ∉ entries then
      { gauge := indexFiles.length, tempCreated := true, concatInputs := indexFiles,
        renamedToFull := true, rpcArgs := [], mergesCounterInc := 0 }
    else
      { gauge := indexFiles.length, tempCreated := true, concatInputs := indexFiles,
        renamedToFull := false, rpcArgs := [baseName tmpIndexPath],
        mergesCounterInc := 1 }

/-- One filesystem entry visited by the filepath.Walk in indexPackage
(importer.go:346-406), together with the data the walk callback branches on:
the verdict of the ignored() filter, utf8.ValidString(path), and whether
index.AddFile succeeds on it.  The visited list already reflects
filepath.SkipDir: children of a filter-rejected directory are not visited. -/
structure WalkEntry where
  path : Name
  isDir : Bool
  isRegular : Bool
  /-- ignored(info, dir, filename) returned a non-nil reason. -/
  filterRejected : Bool
  /-- utf8.ValidString(path). -/
  validUTF8 : Bool
  /-- index.AddFile(path, path[stripLen:]) returned nil. -/
  addFileOk : Bool
  deriving DecidableEq, Repr

/-- Cumulative effects of the walk callback: names added to the index builder
(store-relative), files copied into STORE (store-relative), and staging paths
removed by os.Remove / os.RemoveAll. -/
structure WalkState where
  indexed : List Name
  copied : List Name
  removedFromStaging : List Name
  deriving DecidableEq, Repr

/-- The state before the walk starts. -/
def emptyWalk : WalkState := ⟨[], [], []⟩

/-- The walk callback of indexPackage (importer.go:347-406) on one visited
entry.  Walk paths never end in a separator, so filepath.Split always yields a
nonempty filename and the filter check runs on every entry.  A rejected entry
is removed (RemoveAll for a directory with SkipDir, Remove for a file) — in
both cases its path is deleted from staging.  Then non-regular entries and
invalid-UTF-8 paths are skipped; a file AddFile accepts is also copied under
its store-relative name path[stripLen:], and a file AddFile rejects is removed
instead. -/
def walkStep (stripLen : Nat) (st : WalkState) (e : WalkEntry) : WalkState :=
  if e.filterRejected then
    { st with removedFromStaging := st.removedFromStaging ++ [e.path] }
  else if !e.isRegular then
    st
  else if !e.validUTF8 then
    st
  else if e.addFileOk then
    { st with indexed := st.indexed ++ [e.path.drop stripLen],
              copied := st.copied ++ [e.path.drop stripLen] }
  else
    { st with removedFromStaging := st.removedFromStaging ++ [e.path] }

/-- The whole walk: fold the callback over the visited entries in filesystem
order. -/
def walkAll (stripLen : Nat) (visited : List WalkEntry) : WalkState :=
  visited.foldl (walkStep stripLen) emptyWalk

/-- indexPackage (importer.go:331-415): walk the unpacked tree at
Join(tmpdir, pkg, pkg) with stripLen = len(Join(tmpdir, pkg)) + 1, flush the
builder and rename pkg+".tmp" to pkg+".idx".  Returns the walk effects and the
name of the index file published by the final rename. -/
def indexPackage (tmpdir pkg : Name) (visited : List WalkEntry) :
    WalkState × Name :=
  (walkAll ((pathJoin tmpdir pkg).length + 1) visited, pkg ++ idxSuffix)

/-- Response of the /merge handler mergeOrError (importer.go:169-178):
"Merge started." with HTTP 200, or the HTTP 500 "Merge already in progress,
please try again later." error. -/
inductive MergeResp
  | started
  | busy
  deriving DecidableEq, Repr

/-- State of the merge gate: mergeQueue is an unbuffered channel
(make(chan bool), importer.go:500) drained by a single goroutine running
`for range mergeQueue { mergeToShard() }` (importer.go:506-510).
`receiverWaiting` is true exactly when that goroutine is blocked at the
channel receive; `activeMerges` counts mergeToShard calls that have started
and not yet returned. -/
structure GateState where
  receiverWaiting : Bool
  activeMerges : Nat
  deriving DecidableEq, Repr

/-- The gate at process start: the drainer goroutine is at the receive, no
merge is running. -/
def initGate : GateState := ⟨true, 0⟩

/-- mergeOrError (importer.go:169-178): a non-blocking send on the unbuffered
mergeQueue.  The send rendezvouses iff the drainer goroutine is blocked at the
receive: then the handler answers "Merge started." and the drainer enters
mergeToShard.  Otherwise the select takes its default branch and the handler
answers the 500 error immediately. -/
def mergeOrError : GateState → MergeResp × GateState
  | ⟨true, n⟩ => (.started, ⟨false, n + 1⟩)
  | ⟨false, n⟩ => (.busy, ⟨false, n⟩)

/-- The drainer goroutine returns from mergeToShard and loops back to the
channel receive.  A no-op when no merge is running. -/
def finishMerge : GateState → GateState
  | ⟨_, n + 1⟩ => ⟨true, n⟩
  | ⟨w, 0⟩ => ⟨w, 0⟩

/-- Atomic events of the merge gate: an incoming POST /merge request, or the
completion of a running mergeToShard. -/
inductive GateEvent
  | request
  | finish
  deriving DecidableEq, Repr

/-- One event of the gate transition system. -/
def gateStep (s : GateState) : GateEvent → GateState
  | .request => (mergeOrError s).2
  | .finish => finishMerge s

/-- The gate state after a sequence of events from process start. -/
def gateRun (events : List GateEvent) : GateState :=
  events.foldl gateStep initGate

/-- The responses handed out to a burst of k /merge requests arriving
back-to-back (no merge completes in between), starting from gate state s. -/
def burstResponses : GateState → Nat → List MergeResp
  | _, 0 => []
  | s, k + 1 => (mergeOrError s).1 :: burstResponses (mergeOrError s).2 k

/-- The gate invariant: at most one merge runs at any instant, and none runs
while the drainer goroutine is parked at the receive. -/
def GateInv (s : GateState) : Prop :=
  s.activeMerges ≤ 1 ∧ (s.receiverWaiting = true → s.activeMerges = 0)

/-! Helper lemmas about the Go string operations. -/

theorem goHasSuffix_iff (s suf : Name) : goHasSuffix s suf = true ↔ ∃ t, s = t ++ suf := by
  constructor
  · intro h
    simp only [goHasSuffix, Bool.and_eq_true, decide_eq_true_eq, beq_iff_eq] at h
    refine ⟨s.take (s.length - suf.length), ?_⟩
    conv_lhs => rw [← List.take_append_drop (s.length - suf.length) s]
    rw [h.2]
  · rintro ⟨t, rfl⟩
    simp [goHasSuffix]

theorem goStartsWith_iff (pre s : Name) : goStartsWith pre s = true ↔ ∃ t, s = pre ++ t := by
  constructor
  · intro h
    simp only [goStartsWith, beq_iff_eq] at h
    refine ⟨s.drop pre.length, ?_⟩
    conv_lhs => rw [← List.take_append_drop pre.length s]
    rw [h]
  · rintro ⟨t, rfl⟩
    simp [goStartsWith]

theorem take_strip (t suf : Name) :
    (t ++ suf).take ((t ++ suf).length - suf.length) = t := by
  simp

theorem not_idx_and_tmp (n : Name) (h : goHasSuffix n idxSuffix = true) :
    goHasSuffix n tmpSuffix = false := by
  rw [goHasSuffix_iff] at h
  obtain ⟨t, rfl⟩ := h
  by_contra hc
  rw [Bool.not_eq_false, goHasSuffix_iff] at hc
  obtain ⟨u, hu⟩ := hc
  have hlen : t.length = u.length := by
    have := congrArg List.length hu
    simp [idxSuffix, tmpSuffix] at this
    omega
  obtain ⟨-, h2⟩ := List.append_inj hu.symm hlen.symm
  simp [idxSuffix, tmpSuffix] at h2

theorem getLast?_of_idx (n : Name) (h : goHasSuffix n idxSuffix = true) :
    n.getLast? = some 'x' := by
  rw [goHasSuffix_iff] at h
  obtain ⟨t, rfl⟩ := h
  show (t ++ ['.', 'i', 'd', 'x']).getLast? = some 'x'
  have : t ++ ['.', 'i', 'd', 'x'] = (t ++ ['.', 'i', 'd']) ++ ['x'] := by simp
  rw [this, List.getLast?_concat]

theorem newshard_digits_not_idx (r : Name) (hr : r.all Char.isDigit = true) :
    goHasSuffix (newshardStem ++ r) idxSuffix = false := by
  by_contra hc
  rw [Bool.not_eq_false] at hc
  have hlast := getLast?_of_idx _ hc
  rcases List.eq_nil_or_concat r with rfl | ⟨r', c, rfl⟩
  · simp [newshardStem] at hlast
  · rw [List.concat_eq_append, ← List.append_assoc, List.getLast?_concat] at hlast
    have hcr : c ∈ r' ++ [c] := by simp
    rw [List.concat_eq_append] at hr
    have := List.all_eq_true.mp hr c hcr
    simp at hlast
    subst hlast
    simp at this

theorem takeWhile_all_append (p : Char → Bool) (l₁ l₂ : Name) (x : Char)
    (h₁ : ∀ c ∈ l₁, p c = true) (hx : p x = false) :
    (l₁ ++ x :: l₂).takeWhile p = l₁ := by
  induction l₁ with
  | nil => simp [List.takeWhile_cons, hx]
  | cons a l ih =>
    have ha : p a = true := h₁ a (by simp)
    simp only [List.cons_append, List.takeWhile_cons, ha, if_true]
    rw [ih fun c hc => h₁ c (by simp [hc])]

theorem baseName_pathJoin (dir name : Name) (h : sep ∉ name) :
    baseName (pathJoin dir name) = name := by
  unfold baseName pathJoin
  rw [List.reverse_append, List.reverse_cons]
  rw [List.append_assoc, List.singleton_append]
  rw [takeWhile_all_append _ _ _ _ ?hall ?hsep]
  · exact List.reverse_reverse name
  case hall =>
    intro c hc
    simp only [List.mem_reverse] at hc
    simp only [bne_iff_ne, ne_eq]
    exact fun hceq => h (hceq ▸ hc)
  case hsep => simp

/-- Membership in the /listpkgs reply: exactly the names whose ".idx" file is
a STORE entry other than "full.idx", with the suffix stripped. -/
theorem mem_listPackagesReply (entries : List Name) (q : Name) :
    q ∈ listPackagesReply entries ↔
      (q ++ idxSuffix) ∈ entries ∧ q ++ idxSuffix ≠ fullIdx := by
  constructor
  · intro hq
    simp only [listPackagesReply, List.mem_map, List.mem_filter,
      Bool.and_eq_true, bne_iff_ne, ne_eq] at hq
    obtain ⟨n, ⟨hn, hsuf, hne⟩, rfl⟩ := hq
    obtain ⟨t, rfl⟩ := (goHasSuffix_iff _ _).mp hsuf
    rw [take_strip]
    exact ⟨hn, hne⟩
  · rintro ⟨hmem, hne⟩
    simp only [listPackagesReply, List.mem_map, List.mem_filter,
      Bool.and_eq_true, bne_iff_ne, ne_eq]
    refine ⟨q ++ idxSuffix, ⟨hmem, ?_, hne⟩, ?_⟩
    · exact (goHasSuffix_iff _ _).mpr ⟨q, rfl⟩
    · exact take_strip q idxSuffix

/-- C5: GET /listpkgs returns {"Packages": [...]} whose list contains exactly
those names p such that p++".idx" is a STORE entry and is not "full.idx", each
with the ".idx" suffix stripped; a STORE entry selected by the enumeration
never ends in ".tmp", and — given that every entry starting with "newshard" is
an ioutil.TempFile name, i.e. "newshard" followed by decimal digits — no
listed name starts with "newshard". -/
theorem listpkgs_exact (entries : List Name) (p : Name) :
    (p ∈ listPackagesReply entries ↔
      (p ++ idxSuffix) ∈ entries ∧ p ++ idxSuffix ≠ fullIdx) ∧
    (∀ n ∈ entries, goHasSuffix n idxSuffix = true →
      goHasSuffix n tmpSuffix = false) ∧
    ((∀ n ∈ entries, goStartsWith newshardStem n = true →
        ∃ r, n = newshardStem ++ r ∧ r.all Char.isDigit = true) →
      ∀ q ∈ listPackagesReply entries, goStartsWith newshardStem q = false) := by
  refine ⟨mem_listPackagesReply entries p, ?_, ?_⟩
  · intro n _ hsuf
    exact not_idx_and_tmp n hsuf
  · intro hshape q hq
    by_contra hc
    rw [Bool.not_eq_false, goStartsWith_iff] at hc
    obtain ⟨u, rfl⟩ := hc
    obtain ⟨hmem, -⟩ := (mem_listPackagesReply entries _).mp hq
    rw [List.append_assoc] at hmem
    obtain ⟨r, heq, hdig⟩ :=
      hshape _ hmem ((goStartsWith_iff _ _).mpr ⟨u ++ idxSuffix, rfl⟩)
    have hridx : r = u ++ idxSuffix := by
      have := heq.symm
      rwa [List.append_cancel_left_eq] at this
    have hfalse := newshard_digits_not_idx r hdig
    rw [hridx, ← List.append_assoc] at hfalse
    rw [(goHasSuffix_iff _ _).mpr ⟨newshardStem ++ u, rfl⟩] at hfalse
    exact Bool.true_eq_false ▸ hfalse

/-- C5 witness: a concrete store listing only the stripped package name. -/
theorem listpkgs_exact_witness :
    ['p', 'k', 'g'] ∈ listPackagesReply
      [['p', 'k', 'g', '.', 'i', 'd', 'x'], fullIdx, ['p', 'k', 'g']] ∧
    goStartsWith newshardStem ['p', 'k', 'g'] = false := by
  have h := listpkgs_exact
    [['p', 'k', 'g', '.', 'i', 'd', 'x'], fullIdx, ['p', 'k', 'g']] ['p', 'k', 'g']
  refine ⟨(h.1).mpr (by decide), ?_⟩
  refine h.2.2 ?_ ['p', 'k', 'g'] ((h.1).mpr (by decide))
  intro n hn hstart
  fin_cases hn <;> exact absurd hstart (by decide)

/-- C3 counterexample: with STORE containing only "foo.idx", the request
POST /garbagecollect?package=foo is not accepted: the handler answers the
"No such package" 500 (the existence loop ignores every name ending ".idx"),
leaving the store unchanged. -/
theorem gc_idx_only_store_gets_500 :
    garbageCollect [['f', 'o', 'o', '.', 'i', 'd', 'x']] ['f', 'o', 'o'] =
      (GcResp.notFound, [['f', 'o', 'o', '.', 'i', 'd', 'x']]) ∧
    gcIsError GcResp.notFound = true := by
  decide

/-- C3 amended: POST /garbagecollect?package=pkg fails with status 500
whenever no STORE entry equal to pkg that does not end in ".idx" exists (the
presence of pkg++".idx" alone is not sufficient), and in this failure case the
handler returns before making any filesystem change. -/
theorem gc_requires_non_idx_entry (entries : List Name) (pkg : Name)
    (h : ∀ n ∈ entries, n = pkg → goHasSuffix n idxSuffix = true) :
    gcIsError (garbageCollect entries pkg).1 = true ∧
    (garbageCollect entries pkg).2 = entries := by
  unfold garbageCollect
  by_cases hnil : pkg = []
  · simp [hnil, gcIsError]
  · have hany : (entries.any fun name =>
        name == pkg && !goHasSuffix name idxSuffix) = false := by
      rw [List.any_eq_false]
      intro n hn
      simp only [Bool.and_eq_true, beq_iff_eq, Bool.not_eq_true', not_and]
      intro heq
      simp [h n hn heq]
    simp [hnil, hany, gcIsError]

/-- C3 amended witness: a store holding only the package's index file. -/
theorem gc_requires_non_idx_entry_witness :
    gcIsError (garbageCollect [['f', 'o', 'o', '.', 'i', 'd', 'x']]
      ['f', 'o', 'o']).1 = true ∧
    (garbageCollect [['f', 'o', 'o', '.', 'i', 'd', 'x']] ['f', 'o', 'o']).2 =
      [['f', 'o', 'o', '.', 'i', 'd', 'x']] :=
  gc_requires_non_idx_entry [['f', 'o', 'o', '.', 'i', 'd', 'x']] ['f', 'o', 'o']
    (by decide)

/-- C9: when a non-".idx" entry named pkg exists but pkg++".idx" does not,
garbage collection removes the entry pkg (os.RemoveAll succeeds), then fails
the os.Remove of pkg++".idx" and answers 500 without reaching the success
counter; the deletion of the directory is not rolled back, so the 500 is not
atomic. -/
theorem gc_partial_deletion_on_missing_idx (entries : List Name) (pkg : Name)
    (hne : pkg ≠ []) (hmem : pkg ∈ entries)
    (hidx : goHasSuffix pkg idxSuffix = false)
    (hnoidx : pkg ++ idxSuffix ∉ entries) :
    garbageCollect entries pkg =
      (GcResp.removeIdxFailed, entries.filter fun n => n != pkg) ∧
    gcIsError GcResp.removeIdxFailed = true ∧
    GcResp.removeIdxFailed ≠ GcResp.collected ∧
    pkg ∉ (garbageCollect entries pkg).2 := by
  have hany : (entries.any fun name =>
      name == pkg && !goHasSuffix name idxSuffix) = true := by
    rw [List.any_eq_true]
    exact ⟨pkg, hmem, by simp [hidx]⟩
  have hmemfilter : pkg ++ idxSuffix ∉ entries.filter fun n => n != pkg := by
    intro hc
    exact hnoidx (List.mem_of_mem_filter hc)
  have hgc : garbageCollect entries pkg =
      (GcResp.removeIdxFailed, entries.filter fun n => n != pkg) := by
    unfold garbageCollect
    simp [hne, hany, hmemfilter]
  refine ⟨hgc, rfl, by decide, ?_⟩
  rw [hgc]
  intro hc
  simp only [List.mem_filter, bne_self_eq_false] at hc
  exact absurd hc.2 (by decide)

/-- C9 witness: store {"foo"} with no "foo.idx". -/
theorem gc_partial_deletion_witness :
    garbageCollect [['f', 'o', 'o']] ['f', 'o', 'o'] =
      (GcResp.removeIdxFailed, []) ∧
    ['f', 'o', 'o'] ∉ (garbageCollect [['f', 'o', 'o']] ['f', 'o', 'o']).2 := by
  have h := gc_partial_deletion_on_missing_idx [['f', 'o', 'o']] ['f', 'o', 'o']
    (by decide) (by decide) (by decide) (by decide)
  exact ⟨by simpa using h.1, h.2.2.2⟩

/-- C10: /garbagecollect deletes only direct children of STORE.  A change to
the store happens only when the package parameter is byte-for-byte equal to an
enumerated entry name, and since Readdirnames yields base names containing no
separator, a parameter containing one (such as "../x") is rejected with the
"No such package" 500 before any filesystem modification. -/
theorem gc_never_escapes_store (entries : List Name) (pkg : Name)
    (hclean : ∀ n ∈ entries, sep ∉ n) :
    ((garbageCollect entries pkg).2 ≠ entries → pkg ∈ entries) ∧
    (sep ∈ pkg → garbageCollect entries pkg = (GcResp.notFound, entries)) := by
  constructor
  · intro hchange
    unfold garbageCollect at hchange
    by_cases hnil : pkg = []
    · simp [hnil] at hchange
    · by_cases hany : (entries.any fun name =>
          name == pkg && !goHasSuffix name idxSuffix) = true
      · rw [List.any_eq_true] at hany
        obtain ⟨n, hn, hcond⟩ := hany
        simp only [Bool.and_eq_true, beq_iff_eq] at hcond
        exact hcond.1 ▸ hn
      · rw [Bool.not_eq_true] at hany
        simp [hnil, hany] at hchange
  · intro hsep
    have hnil : pkg ≠ [] := by
      intro hc
      rw [hc] at hsep
      exact absurd hsep (List.not_mem_nil sep)
    have hany : (entries.any fun name =>
        name == pkg && !goHasSuffix name idxSuffix) = false := by
      rw [List.any_eq_false]
      intro n hn
      simp only [Bool.and_eq_true, beq_iff_eq, not_and]
      intro heq
      exact absurd (heq ▸ hsep) (hclean n hn)
    unfold garbageCollect
    simp [hnil, hany]

/-- C10 witness: a traversal attempt with "../x" against a clean store. -/
theorem gc_never_escapes_store_witness :
    garbageCollect [['f', 'o', 'o']] ['.', '.', '/', 'x'] =
      (GcResp.notFound, [['f', 'o', 'o']]) :=
  (gc_never_escapes_store [['f', 'o', 'o']] ['.', '.', '/', 'x']
    (by decide)).2 (by decide)

/-- C6: a merge run collects exactly the STORE names ending ".idx" other than
"full.idx", always sets the shard-count gauge to the number collected, and
with fewer than 2 such names returns without creating a temporary, writing a
shard, renaming, issuing an RPC, or touching the merge counter. -/
theorem merge_enumeration_and_threshold (unpackedPath : Name)
    (entries : List Name) (tempRand : Name) :
    (mergeToShard unpackedPath entries tempRand).gauge =
      (entries.filter fun n => goHasSuffix n idxSuffix && n != fullIdx).length ∧
    ((mergeToShard unpackedPath entries tempRand).tempCreated = true →
      (mergeToShard unpackedPath entries tempRand).concatInputs =
        (entries.filter fun n => goHasSuffix n idxSuffix && n != fullIdx).map
          (pathJoin unpackedPath)) ∧
    ((entries.filter fun n => goHasSuffix n idxSuffix && n != fullIdx).length < 2 →
      mergeToShard unpackedPath entries tempRand =
        { gauge := (entries.filter fun n =>
            goHasSuffix n idxSuffix && n != fullIdx).length,
          tempCreated := false, concatInputs := [], renamedToFull := false,
          rpcArgs := [], mergesCounterInc := 0 }) := by
  unfold mergeToShard
  simp only [List.length_map]
  by_cases hlt : (entries.filter fun n =>
      goHasSuffix n idxSuffix && n != fullIdx).length < 2
  · simp [hlt]
  · by_cases hfull : fullIdx ∈ entries <;> simp [hlt, hfull]

/-- C6 witness: a store with a single package index. -/
theorem merge_enumeration_and_threshold_witness :
    mergeToShard ['s'] [['a', '.', 'i', 'd', 'x'], fullIdx] ['1'] =
      { gauge := 1, tempCreated := false, concatInputs := [],
        renamedToFull := false, rpcArgs := [], mergesCounterInc := 0 } := by
  have h := merge_enumeration_and_threshold ['s'] [['a', '.', 'i', 'd', 'x'], fullIdx] ['1']
  have h2 := h.2.2 (by decide)
  simpa using h2

/-- C4: with at least 2 shards, a merge without an existing full.idx renames
the newshard temporary onto STORE/full.idx and issues no RPC; with full.idx
present it issues exactly one ReplaceIndex RPC whose argument is the basename
"newshard"++tempRand of the temporary — not its full path — and performs no
rename of full.idx. -/
theorem merge_publish_paths (unpackedPath : Name) (entries : List Name)
    (tempRand : Name) (hsep : sep ∉ tempRand)
    (hcount : 2 ≤ (entries.filter fun n =>
      goHasSuffix n idxSuffix && n != fullIdx).length) :
    (fullIdx ∉ entries →
      (mergeToShard unpackedPath entries tempRand).renamedToFull = true ∧
      (mergeToShard unpackedPath entries tempRand).rpcArgs = []) ∧
    (fullIdx ∈ entries →
      (mergeToShard unpackedPath entries tempRand).rpcArgs =
        [newshardStem ++ tempRand] ∧
      newshardStem ++ tempRand ≠ pathJoin unpackedPath (newshardStem ++ tempRand) ∧
      (mergeToShard unpackedPath entries tempRand).renamedToFull = false) := by
  have hlt : ¬(entries.filter fun n =>
      goHasSuffix n idxSuffix && n != fullIdx).length < 2 := by omega
  have hbase : baseName (pathJoin unpackedPath (newshardStem ++ tempRand)) =
      newshardStem ++ tempRand := by
    refine baseName_pathJoin _ _ ?_
    intro hc
    rw [List.mem_append] at hc
    rcases hc with hc | hc
    · exact absurd hc (by decide)
    · exact hsep hc
  constructor
  · intro hfull
    unfold mergeToShard
    simp [hlt, hfull]
  · intro hfull
    have hnn : ¬fullIdx ∉ entries := fun hc => hc hfull
    refine ⟨?_, ?_, ?_⟩
    · unfold mergeToShard
      simp [hlt, hnn, hbase]
    · intro hc
      have := congrArg List.length hc
      simp only [pathJoin, List.length_append, List.length_cons] at this
      omega
    · unfold mergeToShard
      simp [hlt, hnn]

/-- C4 witness: two shards, with and without full.idx. -/
theorem merge_publish_paths_witness :
    (mergeToShard ['s'] [['a', '.', 'i', 'd', 'x'], ['b', '.', 'i', 'd', 'x'], fullIdx]
      ['1']).rpcArgs = [newshardStem ++ ['1']] ∧
    (mergeToShard ['s'] [['a', '.', 'i', 'd', 'x'], ['b', '.', 'i', 'd', 'x']]
      ['1']).renamedToFull = true := by
  have h1 := merge_publish_paths ['s']
    [['a', '.', 'i', 'd', 'x'], ['b', '.', 'i', 'd', 'x'], fullIdx] ['1']
    (by decide) (by decide)
  have h2 := merge_publish_paths ['s']
    [['a', '.', 'i', 'd', 'x'], ['b', '.', 'i', 'd', 'x']] ['1']
    (by decide) (by decide)
  exact ⟨(h1.2 (by decide)).1, (h2.1 (by decide)).1⟩

/-- C7 counterexample: a bootstrap merge (two shards, no full.idx) completes —
it publishes full.idx by rename — yet successfulMerges is not incremented: the
bootstrap branch returns before the counter increment at importer.go:323. -/
theorem bootstrap_merge_uncounted :
    (mergeToShard ['s'] [['a', '.', 'i', 'd', 'x'], ['b', '.', 'i', 'd', 'x']]
      ['1']).renamedToFull = true ∧
    (mergeToShard ['s'] [['a', '.', 'i', 'd', 'x'], ['b', '.', 'i', 'd', 'x']]
      ['1']).mergesCounterInc = 0 := by
  decide

/-- C7 amended: only steady-state merges increment the successful-merges
counter: with at least 2 shards and full.idx present the counter is
incremented exactly once, while the bootstrap case publishes full.idx by
rename and returns without incrementing. -/
theorem merge_counter_steady_only (unpackedPath : Name) (entries : List Name)
    (tempRand : Name)
    (hcount : 2 ≤ (entries.filter fun n =>
      goHasSuffix n idxSuffix && n != fullIdx).length) :
    (fullIdx ∈ entries →
      (mergeToShard unpackedPath entries tempRand).mergesCounterInc = 1) ∧
    (fullIdx ∉ entries →
      (mergeToShard unpackedPath entries tempRand).mergesCounterInc = 0 ∧
      (mergeToShard unpackedPath entries tempRand).renamedToFull = true) := by
  have hlt : ¬(entries.filter fun n =>
      goHasSuffix n idxSuffix && n != fullIdx).length < 2 := by omega
  constructor
  · intro hfull
    have hnn : ¬fullIdx ∉ entries := fun hc => hc hfull
    unfold mergeToShard
    simp [hlt, hnn]
  · intro hfull
    unfold mergeToShard
    simp [hlt, hfull]

/-- C7 amended witness: the steady-state store increments the counter once. -/
theorem merge_counter_steady_only_witness :
    (mergeToShard ['s'] [['a', '.', 'i', 'd', 'x'], ['b', '.', 'i', 'd', 'x'], fullIdx]
      ['1']).mergesCounterInc = 1 :=
  (merge_counter_steady_only ['s']
    [['a', '.', 'i', 'd', 'x'], ['b', '.', 'i', 'd', 'x'], fullIdx] ['1']
    (by decide)).1 (by decide)

/-! Helper lemmas about the indexing walk. -/

theorem walkStep_accepted (n : Nat) (st : WalkState) (e : WalkEntry)
    (h1 : e.filterRejected = false) (h2 : e.isRegular = true)
    (h3 : e.validUTF8 = true) (h4 : e.addFileOk = true) :
    walkStep n st e =
      { st with indexed := st.indexed ++ [e.path.drop n],
                copied := st.copied ++ [e.path.drop n] } := by
  simp [walkStep, h1, h2, h3, h4]

theorem walkStep_addFile_rejected (n : Nat) (st : WalkState) (e : WalkEntry)
    (h1 : e.filterRejected = false) (h2 : e.isRegular = true)
    (h3 : e.validUTF8 = true) (h4 : e.addFileOk = false) :
    walkStep n st e =
      { st with removedFromStaging := st.removedFromStaging ++ [e.path] } := by
  simp [walkStep, h1, h2, h3, h4]

theorem walkStep_indexed_eq_copied (n : Nat) (st : WalkState) (e : WalkEntry)
    (h : st.indexed = st.copied) :
    (walkStep n st e).indexed = (walkStep n st e).copied := by
  rcases e with ⟨p, d, r, fr, vu, ok⟩
  cases fr <;> cases r <;> cases vu <;> cases ok <;> simp [walkStep, h]

theorem walkFold_indexed_eq_copied (n : Nat) (l : List WalkEntry) :
    ∀ st : WalkState, st.indexed = st.copied →
      (l.foldl (walkStep n) st).indexed = (l.foldl (walkStep n) st).copied := by
  induction l with
  | nil => intro st h; exact h
  | cons a l ih =>
    intro st h
    exact ih _ (walkStep_indexed_eq_copied n st a h)

theorem walkStep_mono (n : Nat) (st : WalkState) (e : WalkEntry) (m : Name) :
    (m ∈ st.indexed → m ∈ (walkStep n st e).indexed) ∧
    (m ∈ st.copied → m ∈ (walkStep n st e).copied) ∧
    (m ∈ st.removedFromStaging → m ∈ (walkStep n st e).removedFromStaging) := by
  rcases e with ⟨p, d, r, fr, vu, ok⟩
  cases fr <;> cases r <;> cases vu <;> cases ok <;>
    simp_all [walkStep, List.mem_append]

theorem walkFold_mono (n : Nat) (l : List WalkEntry) :
    ∀ (st : WalkState) (m : Name),
      (m ∈ st.indexed → m ∈ (l.foldl (walkStep n) st).indexed) ∧
      (m ∈ st.copied → m ∈ (l.foldl (walkStep n) st).copied) ∧
      (m ∈ st.removedFromStaging →
        m ∈ (l.foldl (walkStep n) st).removedFromStaging) := by
  induction l with
  | nil => intro st m; exact ⟨id, id, id⟩
  | cons a l ih =>
    intro st m
    refine ⟨?_, ?_, ?_⟩
    · intro h
      exact (ih (walkStep n st a) m).1 ((walkStep_mono n st a m).1 h)
    · intro h
      exact (ih (walkStep n st a) m).2.1 ((walkStep_mono n st a m).2.1 h)
    · intro h
      exact (ih (walkStep n st a) m).2.2 ((walkStep_mono n st a m).2.2 h)

theorem walkFold_mem (n : Nat) (l : List WalkEntry) :
    ∀ (st : WalkState) (e : WalkEntry), e ∈ l → e.filterRejected = false →
      e.isRegular = true → e.validUTF8 = true →
      (e.addFileOk = true →
        e.path.drop n ∈ (l.foldl (walkStep n) st).indexed ∧
        e.path.drop n ∈ (l.foldl (walkStep n) st).copied) ∧
      (e.addFileOk = false →
        e.path ∈ (l.foldl (walkStep n) st).removedFromStaging) := by
  induction l with
  | nil => intro st e he; exact absurd he (List.not_mem_nil e)
  | cons a l ih =>
    intro st e he h1 h2 h3
    rcases List.mem_cons.mp he with rfl | hmem
    · constructor
      · intro h4
        have hstep := walkStep_accepted n st e h1 h2 h3 h4
        constructor
        · refine (walkFold_mono n l _ _).1 ?_
          rw [hstep]
          simp
        · refine (walkFold_mono n l _ _).2.1 ?_
          rw [hstep]
          simp
      · intro h4
        have hstep := walkStep_addFile_rejected n st e h1 h2 h3 h4
        refine (walkFold_mono n l _ _).2.2 ?_
        rw [hstep]
        simp
    · exact ih (walkStep n st a) e hmem h1 h2 h3

/-- C1: for a package whose indexing completes and publishes its index, the
list of names the builder recorded equals the list of store-relative names
copied under STORE/pkg/: a file accepted by AddFile is both indexed and
copied, and a file AddFile rejected is deleted from staging and the walk step
leaves the indexed and copied lists untouched. -/
theorem index_and_store_agree (tmpdir pkg : Name) (visited : List WalkEntry) :
    ((indexPackage tmpdir pkg visited).1.indexed =
      (indexPackage tmpdir pkg visited).1.copied) ∧
    (∀ e ∈ visited, e.filterRejected = false → e.isRegular = true →
      e.validUTF8 = true →
      (e.addFileOk = true →
        e.path.drop ((pathJoin tmpdir pkg).length + 1) ∈
          (indexPackage tmpdir pkg visited).1.indexed ∧
        e.path.drop ((pathJoin tmpdir pkg).length + 1) ∈
          (indexPackage tmpdir pkg visited).1.copied) ∧
      (e.addFileOk = false →
        e.path ∈ (indexPackage tmpdir pkg visited).1.removedFromStaging)) ∧
    (∀ (st : WalkState) (e : WalkEntry), e.filterRejected = false →
      e.isRegular = true → e.validUTF8 = true → e.addFileOk = false →
      walkStep ((pathJoin tmpdir pkg).length + 1) st e =
        { st with removedFromStaging := st.removedFromStaging ++ [e.path] }) := by
  refine ⟨?_, ?_, ?_⟩
  · exact walkFold_indexed_eq_copied _ visited emptyWalk rfl
  · intro e he h1 h2 h3
    exact walkFold_mem _ visited emptyWalk e he h1 h2 h3
  · intro st e h1 h2 h3 h4
    exact walkStep_addFile_rejected _ st e h1 h2 h3 h4

/-- C1 witness: one accepted file and one AddFile-rejected file. -/
theorem index_and_store_agree_witness :
    (indexPackage ['t'] ['p']
      [⟨['t', '/', 'p', '/', 'p', '/', 'a'], false, true, false, true, true⟩,
       ⟨['t', '/', 'p', '/', 'p', '/', 'b'], false, true, false, true, false⟩]).1.indexed =
    (indexPackage ['t'] ['p']
      [⟨['t', '/', 'p', '/', 'p', '/', 'a'], false, true, false, true, true⟩,
       ⟨['t', '/', 'p', '/', 'p', '/', 'b'], false, true, false, true, false⟩]).1.copied ∧
    ['p', '/', 'a'] ∈ (indexPackage ['t'] ['p']
      [⟨['t', '/', 'p', '/', 'p', '/', 'a'], false, true, false, true, true⟩,
       ⟨['t', '/', 'p', '/', 'p', '/', 'b'], false, true, false, true, false⟩]).1.copied := by
  have h := index_and_store_agree ['t'] ['p']
    [⟨['t', '/', 'p', '/', 'p', '/', 'a'], false, true, false, true, true⟩,
     ⟨['t', '/', 'p', '/', 'p', '/', 'b'], false, true, false, true, false⟩]
  refine ⟨h.1, ?_⟩
  have h2 := (h.2.1 ⟨['t', '/', 'p', '/', 'p', '/', 'a'], false, true, false, true, true⟩
    (by simp) rfl rfl rfl).1 rfl
  simpa using h2.2

/-- C8: a regular, filter-accepted file whose path is invalid UTF-8 is skipped
by the walk callback with no effect at all — not indexed, not copied, not
deleted — so the walk result with it present equals the result without it, and
indexing still completes, publishing pkg++".idx". -/
theorem invalid_utf8_skipped (tmpdir pkg : Name) (l₁ l₂ : List WalkEntry)
    (e : WalkEntry) (hflt : e.filterRejected = false)
    (hreg : e.isRegular = true) (hutf : e.validUTF8 = false) :
    (∀ (n : Nat) (st : WalkState), walkStep n st e = st) ∧
    indexPackage tmpdir pkg (l₁ ++ e :: l₂) = indexPackage tmpdir pkg (l₁ ++ l₂) ∧
    (indexPackage tmpdir pkg (l₁ ++ e :: l₂)).2 = pkg ++ idxSuffix := by
  have hstep : ∀ (n : Nat) (st : WalkState), walkStep n st e = st := by
    intro n st
    simp [walkStep, hflt, hreg, hutf]
  refine ⟨hstep, ?_, rfl⟩
  unfold indexPackage walkAll
  rw [List.foldl_append, List.foldl_append, List.foldl_cons, hstep]

/-- C8 witness: an invalid-UTF-8 file between two accepted files changes
nothing. -/
theorem invalid_utf8_skipped_witness :
    indexPackage ['t'] ['p']
      [⟨['t', '/', 'p', '/', 'p', '/', 'a'], false, true, false, true, true⟩,
       ⟨['t', '/', 'p', '/', 'p', '/', 'z'], false, true, false, false, true⟩,
       ⟨['t', '/', 'p', '/', 'p', '/', 'b'], false, true, false, true, true⟩] =
    indexPackage ['t'] ['p']
      [⟨['t', '/', 'p', '/', 'p', '/', 'a'], false, true, false, true, true⟩,
       ⟨['t', '/', 'p', '/', 'p', '/', 'b'], false, true, false, true, true⟩] := by
  have h := invalid_utf8_skipped ['t'] ['p']
    [⟨['t', '/', 'p', '/', 'p', '/', 'a'], false, true, false, true, true⟩]
    [⟨['t', '/', 'p', '/', 'p', '/', 'b'], false, true, false, true, true⟩]
    ⟨['t', '/', 'p', '/', 'p', '/', 'z'], false, true, false, false, true⟩
    rfl rfl rfl
  simpa using h.2.1

/-! Helper lemmas about the merge gate. -/

theorem gateStep_inv (s : GateState) (ev : GateEvent) (h : GateInv s) :
    GateInv (gateStep s ev) := by
  rcases s with ⟨w, n⟩
  rcases h with ⟨h1, h2⟩
  cases ev
  · cases w
    · exact ⟨h1, fun hc => absurd hc (by simp [gateStep, mergeOrError])⟩
    · have hn : n = 0 := h2 rfl
      subst hn
      exact ⟨by simp [gateStep, mergeOrError], fun hc => absurd hc (by simp [gateStep, mergeOrError])⟩
  · cases n with
    | zero => cases w <;> exact ⟨by simp [gateStep, finishMerge], by simp [gateStep, finishMerge]⟩
    | succ m =>
      have hm : m = 0 := by
        simp only [GateInv] at h1
        omega
      subst hm
      exact ⟨by simp [gateStep, finishMerge], by simp [gateStep, finishMerge]⟩

theorem gateFold_inv (l : List GateEvent) :
    ∀ s : GateState, GateInv s → GateInv (l.foldl gateStep s) := by
  induction l with
  | nil => intro s h; exact h
  | cons ev l ih => intro s h; exact ih _ (gateStep_inv s ev h)

theorem burst_busy (n k : Nat) :
    burstResponses ⟨false, n⟩ k = List.replicate k MergeResp.busy := by
  induction k with
  | zero => rfl
  | succ m ih => simp [burstResponses, mergeOrError, ih, List.replicate_succ]

/-- C2: at most one merge executes at any instant — in every gate state
reachable from process start, activeMerges is at most 1, and no merge runs
while the drainer goroutine is parked at the receive; a burst of k+1 /merge
requests arriving while the drainer is at the receive gets exactly one
"Merge started." and k "Merge already in progress" responses; and every
request arriving while the drainer is not receiving (a merge in progress) is
answered "Merge already in progress" immediately. -/
theorem merge_gate_exclusive :
    (∀ events : List GateEvent, GateInv (gateRun events)) ∧
    (∀ (s : GateState) (k : Nat), s.receiverWaiting = true →
      burstResponses s (k + 1) =
        MergeResp.started :: List.replicate k MergeResp.busy) ∧
    (∀ (s : GateState) (k : Nat), s.receiverWaiting = false →
      burstResponses s k = List.replicate k MergeResp.busy) := by
  refine ⟨?_, ?_, ?_⟩
  · intro events
    exact gateFold_inv events initGate ⟨by simp [initGate], fun _ => rfl⟩
  · intro s k hw
    rcases s with ⟨w, n⟩
    cases hw
    simp only [burstResponses, mergeOrError]
    rw [burst_busy]
  · intro s k hw
    rcases s with ⟨w, n⟩
    cases hw
    exact burst_busy n k

/-- C2 witness: three simultaneous requests at process start yield exactly one
started response, and the invariant holds on a concrete event trace. -/
theorem merge_gate_exclusive_witness :
    GateInv (gateRun [GateEvent.request, GateEvent.request, GateEvent.finish,
      GateEvent.request]) ∧
    burstResponses initGate 3 =
      [MergeResp.started, MergeResp.busy, MergeResp.busy] := by
  refine ⟨merge_gate_exclusive.1 _, ?_⟩
  have h2 := merge_gate_exclusive.2.1 initGate 2 rfl
  simpa using h2

end Dcs
